import Mathlib

/-!
Verification development for the Lattes CV extractor (`src/app.py`).

The Python source is shallowly embedded as follows:
- bytes are `List UInt8`, decoded Python strings are `List Char` (tags and
  attribute names that are always ASCII literals are kept as `String`);
- an `xml.etree.ElementTree.Element` is a `Element` record: qualified tag,
  attribute dictionary (association list, keys unique as in a Python dict),
  and the list of direct children;
- `ET.fromstring` is standard-library code outside this repository, so the
  parsing step is an explicit parameter `parseFn : List Char → Option Element`
  (`none` models `ET.ParseError`); everything downstream of it is embedded
  from the source;
- Streamlit UI calls (`st.error`, `st.warning`, dataframe rendering) are
  side-effect-only reporting and have no data flow into the results, so they
  are dropped from the embedding.
-/

set_option autoImplicit false

namespace Lattes

/-- Python `str.endswith` on the character lists of two strings. -/
def strEndsWith (s suffix : String) : Bool :=
  List.isSuffixOf suffix.data s.data

/-- Element of the parsed XML tree (`xml.etree.ElementTree.Element`):
qualified tag, attribute dictionary and direct children. -/
structure Element where
  tag : String
  attrib : List (String × String)
  children : List Element

/-- Python `dict.get(k, d)` on the attribute dictionary. -/
def attrGet (attrs : List (String × String)) (k d : String) : String :=
  match attrs.find? (fun p => p.1 == k) with
  | some p => p.2
  | none => d

/-! ### Sanitizer (`limpar_xml_bruto`), steps 2 and 3 -/

/-- Characters removed by `re.sub(r"[\x00-\x08\x0B\x0C\x0E-\x1F]", "", text)`:
the control codes forbidden by XML 1.0. -/
def isCtrlForbidden (c : Char) : Bool :=
  c.toNat ≤ 0x8 || c.toNat == 0xB || c.toNat == 0xC ||
    (0xE ≤ c.toNat && c.toNat ≤ 0x1F)

/-- Step 2 of `limpar_xml_bruto`: strip the forbidden control characters. -/
def stripCtrl (l : List Char) : List Char :=
  l.filter (fun c => !isCtrlForbidden c)

/-- Python regex `\w` on the ASCII range (letters, digits, underscore); XML
entity references only ever use ASCII word characters. -/
def isWordChar (c : Char) : Bool :=
  c.isAlphanum || c == '_'

/-- Matcher for `\w*;` after at least one word character has been consumed:
keep consuming word characters, and require `;` at the first non-word
character. Since `;` is not a word character, this is exactly the
backtracking semantics of `\w+;` after its first character. -/
def wordTail : List Char → Bool
  | [] => false
  | c :: rest => if isWordChar c then wordTail rest else c == ';'

/-- Matcher for `\w+;` at the head of the list. -/
def entityBody : List Char → Bool
  | [] => false
  | c :: rest => isWordChar c && wordTail rest

/-- Matcher for the lookahead `#?\w+;` at the head of the list. When the head
is `#` the optional `#?` must consume it, because `#` is not a word character
and the empty alternative would immediately fail on `\w+`. -/
def entityAhead : List Char → Bool
  | [] => false
  | c :: rest => if c == '#' then entityBody rest else entityBody (c :: rest)

/-- Step 3 of `limpar_xml_bruto`:
`re.sub(r"&(?!#?\w+;)", "&amp;", text)`. `re.sub` scans left to right; the
match itself is the single character `&` (the lookahead is zero-width), so
scanning resumes right after each `&` whether or not it was replaced. -/
def escapeAmp : List Char → List Char
  | [] => []
  | c :: rest =>
    if c == '&' then
      if entityAhead rest then c :: escapeAmp rest
      else '&' :: 'a' :: 'm' :: 'p' :: ';' :: escapeAmp rest
    else c :: escapeAmp rest

/-- Steps 2 and 3 of `limpar_xml_bruto` (the text-to-text part after byte
decoding): strip forbidden control characters, then escape bare ampersands. -/
def limparTexto (l : List Char) : List Char :=
  escapeAmp (stripCtrl l)

/-! ### Sanitizer, step 1: byte decoding -/

/-- Continuation byte of a UTF-8 sequence (`0x80`–`0xBF`). -/
def isCont (b : UInt8) : Bool :=
  0x80 ≤ b.toNat && b.toNat ≤ 0xBF

/-- Strict UTF-8 decoding, the semantics of Python `bytes.decode("utf-8")`:
rejects truncated sequences, stray continuation bytes, overlong encodings,
surrogates and code points above `0x10FFFF`. The fuel argument is the length
of the byte list; every step consumes at least one byte and spends one unit
of fuel, so the fuel never runs out. -/
def utf8DecodeAux : Nat → List UInt8 → Option (List Char)
  | _, [] => some []
  | 0, _ :: _ => none
  | fuel + 1, b :: rest =>
    let n := b.toNat
    if n ≤ 0x7F then
      (utf8DecodeAux fuel rest).map (fun cs => Char.ofNat n :: cs)
    else if 0xC2 ≤ n && n ≤ 0xDF then
      match rest with
      | b2 :: r =>
        if isCont b2 then
          (utf8DecodeAux fuel r).map
            (fun cs => Char.ofNat ((n - 0xC0) * 0x40 + (b2.toNat - 0x80)) :: cs)
        else none
      | [] => none
    else if 0xE0 ≤ n && n ≤ 0xEF then
      match rest with
      | b2 :: b3 :: r =>
        let lo2 := if n == 0xE0 then 0xA0 else 0x80
        let hi2 := if n == 0xED then 0x9F else 0xBF
        if (lo2 ≤ b2.toNat && b2.toNat ≤ hi2) && isCont b3 then
          (utf8DecodeAux fuel r).map
            (fun cs => Char.ofNat ((n - 0xE0) * 0x1000 + (b2.toNat - 0x80) * 0x40
              + (b3.toNat - 0x80)) :: cs)
        else none
      | _ => none
    else if 0xF0 ≤ n && n ≤ 0xF4 then
      match rest with
      | b2 :: b3 :: b4 :: r =>
        let lo2 := if n == 0xF0 then 0x90 else 0x80
        let hi2 := if n == 0xF4 then 0x8F else 0xBF
        if ((lo2 ≤ b2.toNat && b2.toNat ≤ hi2) && isCont b3) && isCont b4 then
          (utf8DecodeAux fuel r).map
            (fun cs => Char.ofNat ((n - 0xF0) * 0x40000 + (b2.toNat - 0x80) * 0x1000
              + (b3.toNat - 0x80) * 0x40 + (b4.toNat - 0x80)) :: cs)
        else none
      | _ => none
    else none

/-- Python `content_bytes.decode("utf-8")`, `none` modelling
`UnicodeDecodeError`. -/
def utf8Decode (bs : List UInt8) : Option (List Char) :=
  utf8DecodeAux bs.length bs

/-- Python `content_bytes.decode("latin-1", errors="ignore")`: every byte
decodes to the code point of its value, so nothing is ever dropped and the
decoding is total. -/
def decodeLatin1 (bs : List UInt8) : List Char :=
  bs.map (fun b => Char.ofNat b.toNat)

/-- The sanitizer `limpar_xml_bruto`: decode as UTF-8 with Latin-1 fallback
(the `try`/`except UnicodeDecodeError`), then strip forbidden control
characters and escape bare ampersands. -/
def limpar_xml_bruto (bs : List UInt8) : List Char :=
  let text := match utf8Decode bs with
    | some t => t
    | none => decodeLatin1 bs
  limparTexto text

/-! ### Extractor (`parse_curriculo`) -/

/-- Summary record (`resumo` dictionary): the 8 named string fields. -/
structure Resumo where
  idLattes : String
  nomeCompleto : String
  nomeCitacoes : String
  nacionalidade : String
  paisNasc : String
  cidadeNasc : String
  sexo : String
  arquivo : String
deriving DecidableEq

/-- The extractor `parse_curriculo`. `parseFn` stands for `ET.fromstring`
(standard-library code, `none` modelling `ET.ParseError`); `name` is
`file_obj.name` and `content` the bytes returned by `file_obj.read()`. The
root-tag warning and the missing-`DADOS-GERAIS` warning are UI side effects
with no data flow and are not modelled. The scan
`for child in root: if child.tag.endswith("DADOS-GERAIS"): ...; break`
is `List.find?` over the direct children. -/
def parse_curriculo (parseFn : List Char → Option Element)
    (name : String) (content : List UInt8) : Option Element × Option Resumo :=
  let xml_str := limpar_xml_bruto content
  match parseFn xml_str with
  | none => (none, none)
  | some root =>
    let id_lattes := attrGet root.attrib "NUMERO-IDENTIFICADOR" ""
    match root.children.find? (fun c => strEndsWith c.tag "DADOS-GERAIS") with
    | none =>
      (some root, some ⟨id_lattes, "", "", "", "", "", "", name⟩)
    | some dg =>
      (some root, some ⟨id_lattes,
        attrGet dg.attrib "NOME-COMPLETO" "",
        attrGet dg.attrib "NOME-EM-CITACOES-BIBLIOGRAFICAS" "",
        attrGet dg.attrib "NACIONALIDADE" "",
        attrGet dg.attrib "PAIS-DE-NASCIMENTO" "",
        attrGet dg.attrib "CIDADE-NASCIMENTO" "",
        attrGet dg.attrib "SEXO" "",
        name⟩)

/-! ### Education extraction (`extrair_formacao`) -/

/-- Education record (`registro` dictionary): the 8 named string fields. -/
structure Registro where
  nivel : String
  nomeCurso : String
  instituicao : String
  statusCurso : String
  anoInicio : String
  anoConclusao : String
  possuiBolsa : String
  agenciaFomento : String
deriving DecidableEq

/-- The fixed priority list of the 12 recognized education levels
(`niveis` in `extrair_formacao`). -/
def niveis : List String :=
  ["GRADUACAO",
   "ESPECIALIZACAO",
   "MESTRADO",
   "MESTRADO-PROFISSIONALIZANTE",
   "DOUTORADO",
   "POS-DOUTORADO",
   "LIVRE-DOCENCIA",
   "RESIDENCIA-MEDICA",
   "APERFEICOAMENTO",
   "CURSO-TECNICO-PROFISSIONALIZANTE",
   "ENSINO-FUNDAMENTAL-PRIMEIRO-GRAU",
   "ENSINO-MEDIO-SEGUNDO-GRAU"]

/-- The `registro` dictionary built in the inner loop of `extrair_formacao`
for a matched element `e` under level name `nivel`. -/
def registro (nivel : String) (e : Element) : Registro :=
  ⟨nivel,
   attrGet e.attrib "NOME-CURSO" "",
   attrGet e.attrib "NOME-INSTITUICAO" "",
   attrGet e.attrib "STATUS-DO-CURSO" "",
   attrGet e.attrib "ANO-DE-INICIO" "",
   attrGet e.attrib "ANO-DE-CONCLUSAO" "",
   attrGet e.attrib "FLAG-BOLSA" "",
   attrGet e.attrib "NOME-AGENCIA" ""⟩

/-- Inner loop of `extrair_formacao` for one level name: `for elem in
formacao: if not elem.tag.endswith(nivel): continue; append(registro)`. -/
def levelRecords (f : Element) (nivel : String) : List Registro :=
  (f.children.filter (fun e => strEndsWith e.tag nivel)).map (registro nivel)

/-- Outer loop of `extrair_formacao`: the level names in priority order, the
matches of each appended in document order. -/
def extrairNiveis (f : Element) : List Registro :=
  niveis.flatMap (levelRecords f)

/-- `extrair_formacao(cv_root)`: `cv_root` may be `None`
(`parsed_cvs.get(selected_id)`); the education block is the first direct
child whose tag ends in `FORMACAO-ACADEMICA-TITULACAO`. -/
def extrair_formacao (cv_root : Option Element) : List Registro :=
  match cv_root with
  | none => []
  | some root =>
    match root.children.find?
        (fun c => strEndsWith c.tag "FORMACAO-ACADEMICA-TITULACAO") with
    | none => []
    | some f => extrairNiveis f

/-- Priority index of a level name in `niveis` (12 when not recognized). -/
def prioridade (n : String) : Nat :=
  niveis.findIdx (fun m => m == n)

/-! ### Session loop (main script body) -/

/-- Python `parsed_cvs[key_id] = root`: dictionary assignment, overwriting in
place when the key is present (Python dicts keep the original position of an
overwritten key), appending otherwise. -/
def dictInsert (d : List (String × Element)) (k : String) (v : Element) :
    List (String × Element) :=
  if d.any (fun p => p.1 == k) then
    d.map (fun p => if p.1 == k then (k, v) else p)
  else
    d ++ [(k, v)]

/-- Python `parsed_cvs.get(k)`. -/
def lookupKey (d : List (String × Element)) (k : String) : Option Element :=
  (d.find? (fun p => p.1 == k)).map (fun p => p.2)

/-- Key under which a summary is filed: `resumo["ID Lattes"] or uf.name`
(`resumo["Arquivo"]` always equals `uf.name`). -/
def resumoKey (r : Resumo) : String :=
  if r.idLattes == "" then r.arquivo else r.idLattes

/-- One iteration of the upload loop: parse the file; on success file the
tree under its key in `parsed_cvs` and append the summary to `rows_resumo`;
otherwise leave both untouched. -/
def processStep (parseFn : List Char → Option Element)
    (acc : List (String × Element) × List Resumo)
    (file : String × List UInt8) : List (String × Element) × List Resumo :=
  match parse_curriculo parseFn file.1 file.2 with
  | (some root, some resumo) =>
    let key_id := if resumo.idLattes == "" then file.1 else resumo.idLattes
    (dictInsert acc.1 key_id root, acc.2 ++ [resumo])
  | _ => acc

/-- The upload loop over the whole batch, starting from the empty
`parsed_cvs` dictionary and empty `rows_resumo` list. -/
def processUploads (parseFn : List Char → Option Element)
    (files : List (String × List UInt8)) :
    List (String × Element) × List Resumo :=
  files.foldl (processStep parseFn) ([], [])

/-! ### Concrete inputs used by witnesses and counterexamples -/

/-- Parser stub that always fails, as `ET.fromstring` does on malformed
input. -/
def pfNone : List Char → Option Element := fun _ => none

/-- Root element whose `DADOS-GERAIS` child carries a name attribute. -/
def rootComJane : Element :=
  ⟨"CURRICULO-VITAE", [("NUMERO-IDENTIFICADOR", "123")],
   [⟨"DADOS-GERAIS", [("NOME-COMPLETO", "Jane Doe")], []⟩]⟩

/-- Parser stub returning `rootComJane` for any text. -/
def pfComJane : List Char → Option Element := fun _ => some rootComJane

/-- Root element whose `DADOS-GERAIS` child has an empty attribute
dictionary. -/
def rootSemAtributos : Element :=
  ⟨"CURRICULO-VITAE", [], [⟨"DADOS-GERAIS", [], []⟩]⟩

/-- Parser stub returning `rootSemAtributos` for any text. -/
def pfSemAtributos : List Char → Option Element := fun _ => some rootSemAtributos

/-- Root element with identifier `123` and no children at all. -/
def rootSoId : Element :=
  ⟨"CURRICULO-VITAE", [("NUMERO-IDENTIFICADOR", "123")], []⟩

/-- Parser stub returning `rootSoId` for any text. -/
def pfSoId : List Char → Option Element := fun _ => some rootSoId

/-- Root element with an identifier and one non-`DADOS-GERAIS` child. -/
def rootOutroBloco : Element :=
  ⟨"CURRICULO-VITAE", [("NUMERO-IDENTIFICADOR", "123")],
   [⟨"OUTRO-BLOCO", [], []⟩]⟩

/-- Parser stub returning `rootOutroBloco` for any text. -/
def pfOutroBloco : List Char → Option Element := fun _ => some rootOutroBloco

/-- Curriculum whose education block holds a single `POS-DOUTORADO` child. -/
def cvPosDoutorado : Element :=
  ⟨"CURRICULO-VITAE", [],
   [⟨"FORMACAO-ACADEMICA-TITULACAO", [], [⟨"POS-DOUTORADO", [], []⟩]⟩]⟩

/-! ## Sanitizer lemmas -/

theorem word_ne_amp {c : Char} (h : isWordChar c = true) : (c == '&') = false := by
  cases hc : c == '&' with
  | false => rfl
  | true =>
    have hce : c = '&' := eq_of_beq hc
    subst hce
    exact absurd h (by decide)

theorem word_ne_hash {c : Char} (h : isWordChar c = true) : (c == '#') = false := by
  cases hc : c == '#' with
  | false => rfl
  | true =>
    have hce : c = '#' := eq_of_beq hc
    subst hce
    exact absurd h (by decide)

theorem escapeAmp_cons_ne {c : Char} {l : List Char} (h : (c == '&') = false) :
    escapeAmp (c :: l) = c :: escapeAmp l := by
  simp [escapeAmp, h]

theorem escapeAmp_amp_keep {l : List Char} (h : entityAhead l = true) :
    escapeAmp ('&' :: l) = '&' :: escapeAmp l := by
  simp [escapeAmp, h]

theorem escapeAmp_amp_subst {l : List Char} (h : entityAhead l = false) :
    escapeAmp ('&' :: l) = '&' :: 'a' :: 'm' :: 'p' :: ';' :: escapeAmp l := by
  simp [escapeAmp, h]

theorem wordTail_append (ws : List Char) (rest : List Char)
    (h : ∀ c ∈ ws, isWordChar c = true) :
    wordTail (ws ++ ';' :: rest) = true := by
  induction ws with
  | nil => rfl
  | cons w ws ih =>
    have hw : isWordChar w = true := h w (List.mem_cons_self w ws)
    have ih' := ih (fun c hc => h c (List.mem_cons_of_mem w hc))
    simp [wordTail, hw, ih']

theorem entityBody_append (w : Char) (ws rest : List Char)
    (hw : isWordChar w = true) (h : ∀ c ∈ ws, isWordChar c = true) :
    entityBody (w :: ws ++ ';' :: rest) = true := by
  simp [entityBody, hw, wordTail_append ws rest h]

theorem wordTail_decomp : ∀ {l : List Char}, wordTail l = true →
    ∃ ws rest, l = ws ++ ';' :: rest ∧ ∀ c ∈ ws, isWordChar c = true := by
  intro l
  induction l with
  | nil => intro h; exact absurd h (by decide)
  | cons c r ih =>
    intro h
    cases hc : isWordChar c with
    | true =>
      rw [wordTail, if_pos hc] at h
      obtain ⟨ws, rest, hl, hws⟩ := ih h
      refine ⟨c :: ws, rest, by simp [hl], ?_⟩
      intro x hx
      rcases List.mem_cons.mp hx with h1 | h2
      · exact h1 ▸ hc
      · exact hws x h2
    | false =>
      rw [wordTail, if_neg (by simp [hc])] at h
      have hce : c = ';' := eq_of_beq h
      exact ⟨[], r, by simp [hce], by simp⟩

theorem entityBody_decomp {l : List Char} (h : entityBody l = true) :
    ∃ w ws rest, l = w :: ws ++ ';' :: rest ∧ isWordChar w = true
      ∧ ∀ c ∈ ws, isWordChar c = true := by
  match l with
  | [] => exact absurd h (by decide)
  | c :: r =>
    rw [entityBody, Bool.and_eq_true] at h
    obtain ⟨ws, rest, hl, hws⟩ := wordTail_decomp h.2
    exact ⟨c, ws, rest, by simp [hl], h.1, hws⟩

theorem escapeAmp_word_semi (ws rest : List Char)
    (h : ∀ c ∈ ws, isWordChar c = true) :
    escapeAmp (ws ++ ';' :: rest) = ws ++ ';' :: escapeAmp rest := by
  induction ws with
  | nil => exact escapeAmp_cons_ne (by decide)
  | cons w ws ih =>
    have hw : isWordChar w = true := h w (List.mem_cons_self w ws)
    rw [List.cons_append, escapeAmp_cons_ne (word_ne_amp hw),
      ih (fun c hc => h c (List.mem_cons_of_mem w hc)), List.cons_append]

theorem entityAhead_escape {l : List Char} (h : entityAhead l = true) :
    entityAhead (escapeAmp l) = true := by
  match l with
  | [] => exact absurd h (by decide)
  | c :: r =>
    cases hc : c == '#' with
    | true =>
      have hce : c = '#' := eq_of_beq hc
      subst hce
      rw [entityAhead, if_pos (by decide)] at h
      obtain ⟨w, ws, rest, hl, hw, hws⟩ := entityBody_decomp h
      subst hl
      rw [escapeAmp_cons_ne (by decide),
        show (w :: ws ++ ';' :: rest) = ((w :: ws) ++ ';' :: rest) from rfl,
        escapeAmp_word_semi (w :: ws) rest ?hall]
      case hall =>
        intro x hx
        rcases List.mem_cons.mp hx with h1 | h2
        · exact h1 ▸ hw
        · exact hws x h2
      rw [entityAhead, if_pos (by decide)]
      exact entityBody_append w ws (escapeAmp rest) hw hws
    | false =>
      rw [entityAhead, if_neg (by simp [hc])] at h
      obtain ⟨w, ws, rest, hl, hw, hws⟩ := entityBody_decomp h
      have hcw : c = w := by
        have := congrArg (fun t => List.head? t) hl
        simpa using this
      have hr : r = ws ++ ';' :: rest := by
        have := congrArg (fun t => List.tail t) hl
        simpa using this
      subst hcw
      subst hr
      rw [show (c :: (ws ++ ';' :: rest)) = ((c :: ws) ++ ';' :: rest) from rfl,
        escapeAmp_word_semi (c :: ws) rest ?hall2]
      case hall2 =>
        intro x hx
        rcases List.mem_cons.mp hx with h1 | h2
        · exact h1 ▸ hw
        · exact hws x h2
      rw [List.cons_append, entityAhead, if_neg (by simp [hc])]
      exact entityBody_append c ws (escapeAmp rest) hw hws

theorem amp_entity_ahead (z : List Char) :
    entityAhead ('a' :: 'm' :: 'p' :: ';' :: z) = true := rfl

theorem escapeAmp_idem (l : List Char) : escapeAmp (escapeAmp l) = escapeAmp l := by
  induction l with
  | nil => rfl
  | cons c r ih =>
    cases hc : c == '&' with
    | false => rw [escapeAmp_cons_ne hc, escapeAmp_cons_ne hc, ih]
    | true =>
      have hce : c = '&' := eq_of_beq hc
      subst hce
      cases he : entityAhead r with
      | true =>
        rw [escapeAmp_amp_keep he, escapeAmp_amp_keep (entityAhead_escape he), ih]
      | false =>
        rw [escapeAmp_amp_subst he, escapeAmp_amp_keep (amp_entity_ahead _),
          escapeAmp_cons_ne (by decide : (('a' : Char) == '&') = false),
          escapeAmp_cons_ne (by decide : (('m' : Char) == '&') = false),
          escapeAmp_cons_ne (by decide : (('p' : Char) == '&') = false),
          escapeAmp_cons_ne (by decide : (((';') : Char) == '&') = false), ih]

theorem mem_escapeAmp : ∀ {l : List Char} {c : Char}, c ∈ escapeAmp l →
    c ∈ l ∨ c ∈ (['&', 'a', 'm', 'p', ';'] : List Char) := by
  intro l
  induction l with
  | nil => intro c h; exact absurd h (by simp [escapeAmp])
  | cons d r ih =>
    intro c h
    cases hd : d == '&' with
    | false =>
      rw [escapeAmp_cons_ne hd] at h
      rcases List.mem_cons.mp h with h1 | h2
      · exact Or.inl (h1 ▸ List.mem_cons_self d r)
      · rcases ih h2 with h3 | h4
        · exact Or.inl (List.mem_cons_of_mem d h3)
        · exact Or.inr h4
    | true =>
      have hde : d = '&' := eq_of_beq hd
      subst hde
      cases he : entityAhead r with
      | true =>
        rw [escapeAmp_amp_keep he] at h
        rcases List.mem_cons.mp h with h1 | h2
        · exact Or.inr (by simp [h1])
        · rcases ih h2 with h3 | h4
          · exact Or.inl (List.mem_cons_of_mem _ h3)
          · exact Or.inr h4
      | false =>
        rw [escapeAmp_amp_subst he] at h
        simp only [List.mem_cons] at h
        rcases h with h1 | h1 | h1 | h1 | h1 | h2
        · exact Or.inr (by simp [h1])
        · exact Or.inr (by simp [h1])
        · exact Or.inr (by simp [h1])
        · exact Or.inr (by simp [h1])
        · exact Or.inr (by simp [h1])
        · rcases ih h2 with h3 | h4
          · exact Or.inl (List.mem_cons_of_mem _ h3)
          · exact Or.inr h4

theorem stripCtrl_all (l : List Char) :
    (stripCtrl l).all (fun c => !isCtrlForbidden c) = true := by
  rw [List.all_eq_true]
  intro c hc
  exact (List.mem_filter.mp hc).2

theorem escapeAmp_all_clean {l : List Char}
    (h : l.all (fun c => !isCtrlForbidden c) = true) :
    (escapeAmp l).all (fun c => !isCtrlForbidden c) = true := by
  rw [List.all_eq_true] at h ⊢
  intro c hc
  rcases mem_escapeAmp hc with h1 | h2
  · exact h c h1
  · simp only [List.mem_cons, List.not_mem_nil, or_false] at h2
    rcases h2 with h3 | h3 | h3 | h3 | h3 <;> subst h3 <;> decide

theorem limparTexto_all (l : List Char) :
    (limparTexto l).all (fun c => !isCtrlForbidden c) = true :=
  escapeAmp_all_clean (stripCtrl_all l)

theorem stripCtrl_of_all {l : List Char}
    (h : l.all (fun c => !isCtrlForbidden c) = true) : stripCtrl l = l := by
  rw [List.all_eq_true] at h
  exact List.filter_eq_self.mpr h

theorem limparTexto_idem (l : List Char) :
    limparTexto (limparTexto l) = limparTexto l := by
  show escapeAmp (stripCtrl (limparTexto l)) = limparTexto l
  rw [stripCtrl_of_all (limparTexto_all l)]
  exact escapeAmp_idem _

/-- C5: the ampersand-escaping step leaves a `&` that begins a recognized
entity reference unchanged and rewrites every other `&` to `&amp;`; it is
idempotent, and so is the sanitizer's whole text transformation (control
stripping followed by escaping). Concretely, `A &amp; B` is left unchanged
and `A & B` becomes `A &amp; B`. -/
theorem sanitizer_escape_idempotent :
    (∀ l : List Char, escapeAmp (escapeAmp l) = escapeAmp l)
    ∧ (∀ l : List Char, limparTexto (limparTexto l) = limparTexto l)
    ∧ escapeAmp "A &amp; B".data = "A &amp; B".data
    ∧ escapeAmp "A & B".data = "A &amp; B".data :=
  ⟨escapeAmp_idem, limparTexto_idem, rfl, rfl⟩

/-- C6: for every input byte sequence the sanitizer's output contains no
character in the XML 1.0 forbidden control ranges 0x00-0x08, 0x0B, 0x0C,
0x0E-0x1F: the stripping step removes them all and the escaping step only
introduces the characters of `&amp;`. -/
theorem sanitizer_no_forbidden_ctrl :
    ∀ bs : List UInt8,
      (limpar_xml_bruto bs).all (fun c => !isCtrlForbidden c) = true := by
  intro bs
  unfold limpar_xml_bruto
  cases utf8Decode bs <;> exact limparTexto_all _

/-- C9: the sanitizer is total: for every byte sequence either strict UTF-8
decoding succeeds and its result is sanitized, or it fails and the Latin-1
fallback is sanitized instead; the Latin-1 fallback succeeds on any byte
sequence, producing exactly one character per byte. -/
theorem sanitizer_total_decode :
    ∀ bs : List UInt8,
      (∃ t, utf8Decode bs = some t ∧ limpar_xml_bruto bs = limparTexto t)
      ∨ (utf8Decode bs = none
          ∧ limpar_xml_bruto bs = limparTexto (decodeLatin1 bs)
          ∧ (decodeLatin1 bs).length = bs.length) := by
  intro bs
  cases hd : utf8Decode bs with
  | some t =>
    exact Or.inl ⟨t, rfl, by unfold limpar_xml_bruto; rw [hd]⟩
  | none =>
    exact Or.inr ⟨rfl, by unfold limpar_xml_bruto; rw [hd], by simp [decodeLatin1]⟩

/-! ## Extractor theorems -/

/-- C10: the per-document parse returns an all-or-nothing pair: on parse
failure both components are `none`, otherwise both are present and the
summary's filename field equals the input filename. -/
theorem parse_curriculo_all_or_nothing :
    ∀ (parseFn : List Char → Option Element) (name : String)
      (content : List UInt8),
      parse_curriculo parseFn name content = (none, none)
      ∨ ∃ root resumo,
          parse_curriculo parseFn name content = (some root, some resumo)
          ∧ resumo.arquivo = name := by
  intro pf name content
  cases hr : pf (limpar_xml_bruto content) with
  | none => exact Or.inl (by simp [parse_curriculo, hr])
  | some root =>
    cases hdg : root.children.find? (fun c => strEndsWith c.tag "DADOS-GERAIS") with
    | none =>
      exact Or.inr ⟨root,
        ⟨attrGet root.attrib "NUMERO-IDENTIFICADOR" "", "", "", "", "", "", "", name⟩,
        by simp [parse_curriculo, hr, hdg], rfl⟩
    | some dg =>
      exact Or.inr ⟨root,
        ⟨attrGet root.attrib "NUMERO-IDENTIFICADOR" "",
         attrGet dg.attrib "NOME-COMPLETO" "",
         attrGet dg.attrib "NOME-EM-CITACOES-BIBLIOGRAFICAS" "",
         attrGet dg.attrib "NACIONALIDADE" "",
         attrGet dg.attrib "PAIS-DE-NASCIMENTO" "",
         attrGet dg.attrib "CIDADE-NASCIMENTO" "",
         attrGet dg.attrib "SEXO" "", name⟩,
        by simp [parse_curriculo, hr, hdg], rfl⟩

/-- C8: when the parsed root has no direct child whose local tag ends in
`DADOS-GERAIS`, extraction still returns a summary, with the identifier read
off the root and the six general-information fields all equal to the empty
string; no exception is possible since the embedding is a total function. -/
theorem missing_dados_gerais_defaults
    (parseFn : List Char → Option Element) (name : String)
    (content : List UInt8) (root : Element)
    (hroot : parseFn (limpar_xml_bruto content) = some root)
    (hnodg : ∀ c ∈ root.children, strEndsWith c.tag "DADOS-GERAIS" = false) :
    parse_curriculo parseFn name content
      = (some root, some ⟨attrGet root.attrib "NUMERO-IDENTIFICADOR" "",
          "", "", "", "", "", "", name⟩) := by
  have hfind : root.children.find? (fun c => strEndsWith c.tag "DADOS-GERAIS")
      = none := by
    rw [List.find?_eq_none]
    intro c hc
    simp [hnodg c hc]
  simp [parse_curriculo, hroot, hfind]

/-- C8 witness: a concrete root whose only child is `OUTRO-BLOCO`. -/
theorem missing_dados_gerais_defaults_w :
    parse_curriculo pfOutroBloco "cv.xml" []
      = (some rootOutroBloco, some ⟨"123", "", "", "", "", "", "", "cv.xml"⟩) :=
  missing_dados_gerais_defaults pfOutroBloco "cv.xml" [] rootOutroBloco rfl
    (by decide)

/-- C2 (amended): the six general-information fields (full name, citation
name, nationality, birth country, birth city, sex) are read as named
attributes of the located general-information element, each defaulting to the
empty string when absent; the source-filename field is set to the document's
filename, not read off the element. -/
theorem parse_fields_from_dados_gerais
    (parseFn : List Char → Option Element) (name : String)
    (content : List UInt8) (root dg : Element)
    (hroot : parseFn (limpar_xml_bruto content) = some root)
    (hdg : root.children.find? (fun c => strEndsWith c.tag "DADOS-GERAIS")
      = some dg) :
    parse_curriculo parseFn name content
      = (some root, some ⟨attrGet root.attrib "NUMERO-IDENTIFICADOR" "",
          attrGet dg.attrib "NOME-COMPLETO" "",
          attrGet dg.attrib "NOME-EM-CITACOES-BIBLIOGRAFICAS" "",
          attrGet dg.attrib "NACIONALIDADE" "",
          attrGet dg.attrib "PAIS-DE-NASCIMENTO" "",
          attrGet dg.attrib "CIDADE-NASCIMENTO" "",
          attrGet dg.attrib "SEXO" "",
          name⟩) := by
  simp [parse_curriculo, hroot, hdg]

/-- C2 witness: with identifier `123` and `NOME-COMPLETO="Jane Doe"` on the
general-information element, the summary is `123` / `Jane Doe` with the other
attribute-backed fields empty and the filename field equal to the input
filename. -/
theorem parse_fields_from_dados_gerais_w :
    parse_curriculo pfComJane "cv.xml" []
      = (some rootComJane,
         some ⟨"123", "Jane Doe", "", "", "", "", "", "cv.xml"⟩) :=
  parse_fields_from_dados_gerais pfComJane "cv.xml" [] rootComJane
    ⟨"DADOS-GERAIS", [("NOME-COMPLETO", "Jane Doe")], []⟩ rfl rfl

/-- C2 counterexample: the claim says all 7 non-identifier fields, including
the source filename, are read as named attributes of the general-information
element with empty-string default. Here that element has an empty attribute
dictionary, so every attribute read with empty default returns the empty
string, yet the summary's filename field is `cv.xml`, which is not empty: it
comes from the uploaded file's name, not from an attribute. -/
theorem resumo_arquivo_not_attribute :
    (parse_curriculo pfSemAtributos "cv.xml" []).2
      = some ⟨"", "", "", "", "", "", "", "cv.xml"⟩
    ∧ rootSemAtributos.children = [⟨"DADOS-GERAIS", [], []⟩]
    ∧ ¬ (("cv.xml" : String) = "") := by
  refine ⟨rfl, rfl, by decide⟩

/-- C7: when the parser fails on a document's sanitized text, that document
yields no result at all, and processing a batch with the failed document
present gives exactly the same keyed tree store and summary rows as the batch
without it. -/
theorem parse_failure_isolated
    (parseFn : List Char → Option Element)
    (d1 d2 : List (String × List UInt8)) (name : String)
    (content : List UInt8)
    (hfail : parseFn (limpar_xml_bruto content) = none) :
    parse_curriculo parseFn name content = (none, none)
    ∧ processUploads parseFn (d1 ++ (name, content) :: d2)
        = processUploads parseFn (d1 ++ d2) := by
  have hp : parse_curriculo parseFn name content = (none, none) := by
    simp [parse_curriculo, hfail]
  refine ⟨hp, ?_⟩
  have hstep : ∀ acc, processStep parseFn acc (name, content) = acc := by
    intro acc
    simp [processStep, hp]
  simp [processUploads, List.foldl_append, List.foldl_cons, hstep]

/-- C7 witness: with the always-failing parser, a bad document placed between
two others changes nothing about the batch results. -/
theorem parse_failure_isolated_w :
    parse_curriculo pfNone "bad.xml" [] = (none, none)
    ∧ processUploads pfNone ([("a.xml", [])] ++ ("bad.xml", []) :: [("b.xml", [])])
        = processUploads pfNone ([("a.xml", [])] ++ [("b.xml", [])]) :=
  parse_failure_isolated pfNone [("a.xml", [])] [("b.xml", [])] "bad.xml" [] rfl

/-! ## Session-loop lemmas -/

theorem find_map_replace (d : List (String × Element)) (k : String) (v : Element)
    (h : d.any (fun p => p.1 == k) = true) :
    (d.map (fun p => if p.1 == k then (k, v) else p)).find? (fun p => p.1 == k)
      = some (k, v) := by
  induction d with
  | nil => exact absurd h (by simp)
  | cons p d ih =>
    cases hp : (p.1 == k) with
    | true =>
      rw [List.map_cons, if_pos hp]
      exact List.find?_cons_of_pos _ (by simp)
    | false =>
      have h' : d.any (fun p => p.1 == k) = true := by
        rw [List.any_cons, hp, Bool.false_or] at h
        exact h
      rw [List.map_cons, if_neg (by simp [hp]),
        List.find?_cons_of_neg _ (by simp [hp])]
      exact ih h'

theorem find_append_absent (d : List (String × Element)) (k : String) (v : Element)
    (h : d.any (fun p => p.1 == k) = false) :
    (d ++ [(k, v)]).find? (fun p => p.1 == k) = some (k, v) := by
  induction d with
  | nil => simp
  | cons p d ih =>
    rw [List.any_cons] at h
    have hp : (p.1 == k) = false := by
      cases hpb : (p.1 == k)
      · rfl
      · rw [hpb] at h; simp at h
    have h' : d.any (fun p => p.1 == k) = false := by
      rw [hp, Bool.false_or] at h
      exact h
    rw [List.cons_append, List.find?_cons_of_neg _ (by simp [hp])]
    exact ih h'

theorem lookup_dictInsert (d : List (String × Element)) (k : String) (v : Element) :
    lookupKey (dictInsert d k v) k = some v := by
  unfold dictInsert lookupKey
  rcases Bool.eq_false_or_eq_true (d.any (fun p => p.1 == k)) with ha | ha
  · rw [if_pos ha, find_map_replace d k v ha]
    rfl
  · rw [if_neg (by simp [ha]), find_append_absent d k v ha]
    rfl

theorem keys_dictInsert (d : List (String × Element)) (k : String) (v : Element) :
    (dictInsert d k v).map Prod.fst
      = if d.any (fun p => p.1 == k) then d.map Prod.fst
        else d.map Prod.fst ++ [k] := by
  unfold dictInsert
  rcases Bool.eq_false_or_eq_true (d.any (fun p => p.1 == k)) with ha | ha
  · rw [if_pos ha, if_pos ha, List.map_map]
    apply List.map_congr_left
    intro p _
    cases hp : (p.1 == k) with
    | true =>
      have hpk : p.1 = k := eq_of_beq hp
      simp [hp, hpk]
    | false =>
      have hne : p.1 ≠ k := by simpa using hp
      simp [hne]
  · rw [if_neg (by simp [ha]), if_neg (by simp [ha]), List.map_append]
    rfl

theorem nodup_keys_dictInsert (d : List (String × Element)) (k : String)
    (v : Element) (h : (d.map Prod.fst).Nodup) :
    ((dictInsert d k v).map Prod.fst).Nodup := by
  rw [keys_dictInsert]
  cases ha : d.any (fun p => p.1 == k) with
  | true => simpa [ha] using h
  | false =>
    rw [if_neg (by simp [ha]), List.nodup_append]
    refine ⟨h, List.nodup_singleton k, ?_⟩
    intro x hx hk
    simp only [List.mem_singleton] at hk
    subst hk
    obtain ⟨p, hp, hpx⟩ := List.mem_map.mp hx
    rw [List.any_eq_false] at ha
    exact ha p hp (by simp [hpx])

theorem nodup_keys_processUploads (parseFn : List Char → Option Element)
    (files : List (String × List UInt8)) :
    ((processUploads parseFn files).1.map Prod.fst).Nodup := by
  suffices h : ∀ (fs : List (String × List UInt8))
      (acc : List (String × Element) × List Resumo),
      (acc.1.map Prod.fst).Nodup →
      ((fs.foldl (processStep parseFn) acc).1.map Prod.fst).Nodup by
    exact h files ([], []) (by simp)
  intro fs
  induction fs with
  | nil => intro acc h; exact h
  | cons f fs ih =>
    intro acc h
    rw [List.foldl_cons]
    apply ih
    rcases hp : parse_curriculo parseFn f.1 f.2 with ⟨ro, so⟩
    cases ro with
    | none => simpa [processStep, hp] using h
    | some root =>
      cases so with
      | none => simpa [processStep, hp] using h
      | some resumo =>
        simpa [processStep, hp] using nodup_keys_dictInsert acc.1 _ root h

/-- C3 (amended): a later document sharing a key with an earlier one
overwrites it in the keyed tree store `parsed_cvs`, whose keys stay unique,
so that store holds at most one parsed tree per key; the summary rows
however are appended to `rows_resumo` without keying, so the rows list keeps
one SummaryRecord per successfully parsed document even when keys repeat. -/
theorem later_doc_overwrites_tree
    (parseFn : List Char → Option Element)
    (files : List (String × List UInt8)) (name : String)
    (content : List UInt8) (root : Element) (resumo : Resumo)
    (h : parse_curriculo parseFn name content = (some root, some resumo)) :
    lookupKey (processUploads parseFn (files ++ [(name, content)])).1
        (if resumo.idLattes == "" then name else resumo.idLattes) = some root
    ∧ (processUploads parseFn (files ++ [(name, content)])).2
        = (processUploads parseFn files).2 ++ [resumo]
    ∧ ∀ fs : List (String × List UInt8),
        ((processUploads parseFn fs).1.map Prod.fst).Nodup := by
  have hfold : processUploads parseFn (files ++ [(name, content)])
      = processStep parseFn (processUploads parseFn files) (name, content) := by
    simp [processUploads, List.foldl_append]
  have hstep : processStep parseFn (processUploads parseFn files) (name, content)
      = (dictInsert (processUploads parseFn files).1
          (if resumo.idLattes == "" then name else resumo.idLattes) root,
         (processUploads parseFn files).2 ++ [resumo]) := by
    simp [processStep, h]
  refine ⟨?_, ?_, fun fs => nodup_keys_processUploads parseFn fs⟩
  · rw [hfold, hstep]
    exact lookup_dictInsert _ _ _
  · rw [hfold, hstep]

/-- C3 witness: a second upload keyed `123` after an unrelated first one; its
tree is found under key `123` afterwards. -/
theorem later_doc_overwrites_tree_w :
    lookupKey (processUploads pfComJane ([("b.xml", [])] ++ [("a.xml", [])])).1
        "123" = some rootComJane :=
  (later_doc_overwrites_tree pfComJane [("b.xml", [])] "a.xml" [] rootComJane
    ⟨"123", "Jane Doe", "", "", "", "", "", "a.xml"⟩ rfl).1

/-- C3 counterexample: two successfully parsed documents share the non-empty
identifier `123`. The keyed tree store ends with the single key `123`, but
the session's summary rows keep two SummaryRecords with that same key, so
the working set does not hold at most one SummaryRecord per key. -/
theorem duplicate_key_rows_kept :
    ¬ ((processUploads pfSoId [("a.xml", []), ("b.xml", [])]).2.countP
        (fun r => resumoKey r == "123") ≤ 1)
    ∧ ((processUploads pfSoId [("a.xml", []), ("b.xml", [])]).1.map Prod.fst)
        = ["123"]
    ∧ (processUploads pfSoId [("a.xml", []), ("b.xml", [])]).2.length = 2 := by
  refine ⟨by decide, by decide, by decide⟩

/-! ## Education-extraction lemmas -/

theorem mem_levelRecords {f : Element} {n : String} {r : Registro}
    (h : r ∈ levelRecords f n) : r.nivel = n := by
  unfold levelRecords at h
  obtain ⟨e, _, he⟩ := List.mem_map.mp h
  rw [← he]
  rfl

theorem pairwise_flatMap_levels (f : Element) :
    ∀ l : List String, l.Pairwise (fun a b => prioridade a ≤ prioridade b) →
      (l.flatMap (levelRecords f)).Pairwise
        (fun r s => prioridade r.nivel ≤ prioridade s.nivel) := by
  intro l
  induction l with
  | nil => intro _; simp
  | cons a l ih =>
    intro h
    rw [List.flatMap_cons, List.pairwise_append]
    refine ⟨?_, ih (List.Pairwise.of_cons h), ?_⟩
    · apply List.pairwise_of_forall_mem_list
      intro r hr s hs
      rw [mem_levelRecords hr, mem_levelRecords hs]
    · intro r hr s hs
      rw [mem_levelRecords hr]
      obtain ⟨b, hb, hsb⟩ := List.mem_flatMap.mp hs
      rw [mem_levelRecords hsb]
      exact (List.pairwise_cons.mp h).1 b hb

theorem filter_levelRecords_self (f : Element) (n : String) :
    (levelRecords f n).filter (fun r => r.nivel == n) = levelRecords f n := by
  rw [List.filter_eq_self]
  intro r hr
  simp [mem_levelRecords hr]

theorem filter_levelRecords_other (f : Element) {a n : String} (h : a ≠ n) :
    (levelRecords f a).filter (fun r => r.nivel == n) = [] := by
  rw [List.filter_eq_nil_iff]
  intro r hr
  simp [mem_levelRecords hr, h]

theorem filter_flatMap_absent (f : Element) (n : String) :
    ∀ l : List String, n ∉ l →
      (l.flatMap (levelRecords f)).filter (fun r => r.nivel == n) = [] := by
  intro l
  induction l with
  | nil => intro _; simp
  | cons a l ih =>
    intro h
    have hne : a ≠ n := by
      intro ha
      exact h (by rw [← ha]; exact List.mem_cons_self a l)
    rw [List.flatMap_cons, List.filter_append, filter_levelRecords_other f hne,
      ih (fun hm => h (List.mem_cons_of_mem a hm)), List.append_nil]

theorem filter_flatMap_levels (f : Element) (n : String) :
    ∀ l : List String, n ∈ l → l.Nodup →
      (l.flatMap (levelRecords f)).filter (fun r => r.nivel == n)
        = levelRecords f n := by
  intro l
  induction l with
  | nil => intro h _; exact absurd h (by simp)
  | cons a l ih =>
    intro hmem hnd
    rw [List.flatMap_cons, List.filter_append]
    by_cases ha : a = n
    · subst ha
      rw [filter_levelRecords_self,
        filter_flatMap_absent f a l ((List.nodup_cons.mp hnd).1),
        List.append_nil]
    · have hmem' : n ∈ l := by
        rcases List.mem_cons.mp hmem with h1 | h2
        · exact absurd h1.symm ha
        · exact h2
      rw [filter_levelRecords_other f ha, List.nil_append,
        ih hmem' (List.Nodup.of_cons hnd)]

/-- C4: an education block holding one `MESTRADO` element and one `DOUTORADO`
element yields, in either document order, exactly the two records
master-then-doctorate; in general the output is sorted by the fixed
12-level priority order of the `Nível` field, and within each recognized
level the records are the level's matching children in document order. -/
theorem extrair_formacao_priority_order :
    (∀ a1 a2 : List (String × String),
      extrair_formacao (some ⟨"CURRICULO-VITAE", [],
          [⟨"FORMACAO-ACADEMICA-TITULACAO", [],
            [⟨"MESTRADO", a1, []⟩, ⟨"DOUTORADO", a2, []⟩]⟩]⟩)
        = [registro "MESTRADO" ⟨"MESTRADO", a1, []⟩,
           registro "DOUTORADO" ⟨"DOUTORADO", a2, []⟩]
      ∧ extrair_formacao (some ⟨"CURRICULO-VITAE", [],
          [⟨"FORMACAO-ACADEMICA-TITULACAO", [],
            [⟨"DOUTORADO", a2, []⟩, ⟨"MESTRADO", a1, []⟩]⟩]⟩)
        = [registro "MESTRADO" ⟨"MESTRADO", a1, []⟩,
           registro "DOUTORADO" ⟨"DOUTORADO", a2, []⟩])
    ∧ (∀ o : Option Element,
        (extrair_formacao o).Pairwise
          (fun r s => prioridade r.nivel ≤ prioridade s.nivel))
    ∧ (∀ (f : Element) (i : Fin niveis.length),
        (extrairNiveis f).filter (fun r => r.nivel == niveis.get i)
          = levelRecords f (niveis.get i)) := by
  refine ⟨fun a1 a2 => ⟨rfl, rfl⟩, ?_, ?_⟩
  · intro o
    match o with
    | none => simp [extrair_formacao]
    | some root =>
      cases hf : root.children.find?
          (fun c => strEndsWith c.tag "FORMACAO-ACADEMICA-TITULACAO") with
      | none =>
        have he : extrair_formacao (some root) = [] := by
          simp [extrair_formacao, hf]
        rw [he]
        simp
      | some f =>
        have he : extrair_formacao (some root) = extrairNiveis f := by
          simp [extrair_formacao, hf]
        rw [he]
        exact pairwise_flatMap_levels f niveis (by decide)
  · intro f i
    exact filter_flatMap_levels f (niveis.get i) niveis
      (List.get_mem niveis i.1 i.2) (by decide)

/-- C1 counterexample: an education block whose single direct child is tagged
`POS-DOUTORADO` yields two EducationRecords, not one: the tag ends both in
`DOUTORADO` and in `POS-DOUTORADO`, so the child is emitted under both
recognized level names. -/
theorem posDoutorado_emitted_twice :
    (extrair_formacao (some cvPosDoutorado)).length = 2
    ∧ ¬ ((extrair_formacao (some cvPosDoutorado)).length ≤ 1)
    ∧ (extrair_formacao (some cvPosDoutorado)).map (fun r => r.nivel)
        = ["DOUTORADO", "POS-DOUTORADO"] := by
  refine ⟨by decide, by decide, by decide⟩

/-- C1 (amended): a direct child of the education block is emitted once for
each recognized level name its tag ends with. Among the 12 level names the
only suffix collision is `DOUTORADO` and `POS-DOUTORADO`, so an element whose
tag ends in `POS-DOUTORADO` yields exactly two records, one under `DOUTORADO`
and one under `POS-DOUTORADO`, while an element matching a single level name
(for example `MESTRADO`) yields exactly one record. -/
theorem extrair_formacao_suffix_matches :
    ∀ attrs : List (String × String),
      extrair_formacao (some ⟨"CURRICULO-VITAE", [],
          [⟨"FORMACAO-ACADEMICA-TITULACAO", [], [⟨"POS-DOUTORADO", attrs, []⟩]⟩]⟩)
        = [registro "DOUTORADO" ⟨"POS-DOUTORADO", attrs, []⟩,
           registro "POS-DOUTORADO" ⟨"POS-DOUTORADO", attrs, []⟩]
      ∧ extrair_formacao (some ⟨"CURRICULO-VITAE", [],
          [⟨"FORMACAO-ACADEMICA-TITULACAO", [], [⟨"MESTRADO", attrs, []⟩]⟩]⟩)
        = [registro "MESTRADO" ⟨"MESTRADO", attrs, []⟩] :=
  fun _ => ⟨rfl, rfl⟩

end Lattes
